import Mathlib

/-
Verification development for rasor_ratings (src/main.rs).

The program discovers team ids from a paginated endpoint, fetches each
team's schedule with bounded concurrency (dropping failures silently),
computes an opponent-adjusted defense/offense rating for each team with a
nonempty events list, and prints a ranked table.

Shallow embedding conventions:
- f64 score values are modelled by the type FQ: a rational number, an
  infinity, or NaN.  Scores are finite; NaN and the infinities arise only
  from the `x /= count` divisions when the count is zero (the count casts
  to +0.0, so the IEEE result is NaN for a 0.0 dividend and a
  sign-matching infinity otherwise) and then propagate through the
  arithmetic.
- serde_json::Number is modelled by its partial f64 view (as_f64 may fail
  for values not representable as f64).
- The u8 counters `count` and `o_count` are modelled as Nat with an
  explicit % 256 at each increment (release-profile wrapping arithmetic).
- Panicking slice indexing (competitors[0], competitors[1]) is modelled
  by Option: a `none` result of a loop or of computeRatings models a
  panic of the corresponding Rust code.
- Network I/O is abstracted: the pagination loop consumes a list whose
  k-th entry is the provider's response to the request for page k, and
  the concurrent fetch is modelled by the list of per-task outcomes
  (Result<Result<TeamSchedule, reqwest::Error>, JoinError>).
-/

/-- Model of an f64 value as used by this program: a rational number, an
infinity, or NaN. -/
inductive FQ where
  | nan : FQ
  | posInf : FQ
  | negInf : FQ
  | num : ℚ → FQ
deriving DecidableEq

/-- f64 addition on the modelled values: NaN absorbs, opposite
infinities give NaN, an infinity otherwise absorbs. -/
def fqAdd : FQ → FQ → FQ
  | FQ.nan, _ => FQ.nan
  | _, FQ.nan => FQ.nan
  | FQ.posInf, FQ.negInf => FQ.nan
  | FQ.negInf, FQ.posInf => FQ.nan
  | FQ.posInf, _ => FQ.posInf
  | _, FQ.posInf => FQ.posInf
  | FQ.negInf, _ => FQ.negInf
  | _, FQ.negInf => FQ.negInf
  | FQ.num a, FQ.num b => FQ.num (a + b)

/-- f64 subtraction on the modelled values: NaN absorbs, an infinity
minus itself gives NaN, an infinity otherwise dominates with its sign
(negated on the right). -/
def fqSub : FQ → FQ → FQ
  | FQ.nan, _ => FQ.nan
  | _, FQ.nan => FQ.nan
  | FQ.posInf, FQ.posInf => FQ.nan
  | FQ.negInf, FQ.negInf => FQ.nan
  | FQ.posInf, _ => FQ.posInf
  | FQ.negInf, _ => FQ.negInf
  | _, FQ.posInf => FQ.negInf
  | _, FQ.negInf => FQ.posInf
  | FQ.num a, FQ.num b => FQ.num (a - b)

/-- Model of `x /= count as f64`.  The count is an unsigned counter cast
to f64, so a zero count divides by +0.0: IEEE gives NaN for a 0.0
dividend and a sign-matching infinity for a nonzero finite dividend.
NaN and infinite dividends propagate (an infinity divided by a
nonnegative count stays that infinity). -/
def fqDivNat : FQ → ℕ → FQ
  | FQ.nan, _ => FQ.nan
  | FQ.posInf, _ => FQ.posInf
  | FQ.negInf, _ => FQ.negInf
  | FQ.num q, n =>
    if n = 0 then
      if q = 0 then FQ.nan else if 0 < q then FQ.posInf else FQ.negInf
    else FQ.num (q / (n : ℚ))

/-- Model of `f64::total_cmp` restricted to the values this program can
produce: -Inf below the finite numbers, +Inf above them, NaN above +Inf
(the positive-NaN convention; the sign of the NaN the program generates
is platform dependent, and no theorem below depends on where NaN
sorts). -/
def FQ.totalCmp : FQ → FQ → Ordering
  | FQ.nan, FQ.nan => Ordering.eq
  | FQ.nan, _ => Ordering.gt
  | _, FQ.nan => Ordering.lt
  | FQ.posInf, FQ.posInf => Ordering.eq
  | FQ.posInf, _ => Ordering.gt
  | _, FQ.posInf => Ordering.lt
  | FQ.negInf, FQ.negInf => Ordering.eq
  | FQ.negInf, _ => Ordering.lt
  | _, FQ.negInf => Ordering.gt
  | FQ.num a, FQ.num b =>
      if a < b then Ordering.lt else if b < a then Ordering.gt else Ordering.eq

/-- Model of serde_json::Number via its partial f64 view (`as_f64`). -/
structure Number where
  asF64 : Option ℚ
deriving DecidableEq

/-- struct Ref, a reference item on a discovery page (field `$ref`). -/
structure Ref where
  url : String
deriving DecidableEq

/-- struct PaginatedItems: one page of the team-discovery listing. -/
structure PaginatedItems where
  page_index : Number
  page_count : Number
  items : List Ref
deriving DecidableEq

/-- struct Team. -/
structure Team where
  id : String
  location : String
deriving DecidableEq

/-- struct CompetitorScore. -/
structure CompetitorScore where
  value : Number
deriving DecidableEq

/-- struct Competitor. -/
structure Competitor where
  id : String
  score : Option CompetitorScore
deriving DecidableEq

/-- struct Competition. -/
structure Competition where
  competitors : List Competitor
deriving DecidableEq

/-- struct Event. -/
structure Event where
  competitions : List Competition
deriving DecidableEq

/-- struct TeamSchedule. -/
structure TeamSchedule where
  team : Team
  events : List Event
deriving DecidableEq

/-- struct TeamRating. -/
structure TeamRating where
  name : String
  defense_rating : FQ
  offense_rating : FQ
deriving DecidableEq

/-- struct TableEntry. -/
structure TableEntry where
  rank : ℕ
  team : String
  overall_rating : FQ
  defense_rating : FQ
  offense_rating : FQ
deriving DecidableEq

/-- Digit value of a character, as used by u32 parsing. -/
def digitVal : Char → Option ℕ :=
  fun c => if c.isDigit then some (c.toNat - 48) else none

/-- Accumulating decimal parse over a character list. -/
def parseDigits : ℕ → List Char → Option ℕ
  | acc, [] => some acc
  | acc, c :: cs =>
    match digitVal c with
    | none => none
    | some d => parseDigits (acc * 10 + d) cs

/-- Model of `str::parse::<u32>`: optional leading plus sign, then one or
more decimal digits, rejecting values exceeding u32::MAX. -/
def parseU32 (s : String) : Option ℕ :=
  let cs :=
    match s.toList with
    | c :: rest => if c = '+' then rest else s.toList
    | [] => []
  match cs with
  | [] => none
  | _ =>
    match parseDigits 0 cs with
    | none => none
    | some n => if n < 4294967296 then some n else none

/-- Split a character list at the first occurrence of a character. -/
def splitOnceAux (c : Char) : List Char → Option (List Char × List Char)
  | [] => none
  | x :: xs =>
    if x = c then some ([], xs)
    else
      match splitOnceAux c xs with
      | none => none
      | some p => some (x :: p.1, p.2)

/-- Model of `str::split_once`. -/
def splitOnce (s : String) (c : Char) : Option (String × String) :=
  match splitOnceAux c s.toList with
  | none => none
  | some p => some (String.mk p.1, String.mk p.2)

/-- Model of `str::rsplit_once`: split around the last occurrence. -/
def rsplitOnce (s : String) (c : Char) : Option (String × String) :=
  match splitOnceAux c s.toList.reverse with
  | none => none
  | some p => some (String.mk p.2.reverse, String.mk p.1.reverse)

/-- Extraction of a team id from one reference item (main.rs 376-387):
take the segment after the last '/', cut it at the first '?', parse the
result as u32; any failure drops the item. -/
def extractTeamId (item : Ref) : Option ℕ :=
  match rsplitOnce item.url '/' with
  | none => none
  | some firstSplit =>
    match splitOnce firstSplit.2 '?' with
    | none => none
    | some secondSplit => parseU32 secondSplit.1

/-- Team ids successfully parsed from one discovery page. -/
def extractPageIds (page : PaginatedItems) : List ℕ :=
  page.items.filterMap extractTeamId

/-- Model of the `get_team_ids` loop (main.rs 347-398).  The k-th list
entry is the provider's response to the request for page k (the loop's
`page_index` counter increments by one per request).  The ids of each
fetched page are appended, and the loop stops as soon as the page just
fetched reports `page_index == page_count`.  An exhausted response list
models a request that fails (the `?` operator aborting the function), so
the result is `none`. -/
def getTeamIdsFrom : List PaginatedItems → Option (List ℕ)
  | [] => none
  | page :: rest =>
    if page.page_index = page.page_count then some (extractPageIds page)
    else
      match getTeamIdsFrom rest with
      | none => none
      | some ids => some (extractPageIds page ++ ids)

/-- C5: for response sequences whose pages each report an index different
from the count until a final page reports index = count, discovery stops
exactly at that final page (zero-item pages in between do not stop it),
ignores any later responses, and returns the concatenation of the ids
parsed from every fetched page. -/
theorem c5_pagination_terminates (pre : List PaginatedItems)
    (lastPage : PaginatedItems) (rest : List PaginatedItems)
    (hpre : ∀ p ∈ pre, p.page_index ≠ p.page_count)
    (hlast : lastPage.page_index = lastPage.page_count) :
    getTeamIdsFrom (pre ++ lastPage :: rest)
      = some (((pre ++ [lastPage]).map extractPageIds).flatten) := by
  induction pre with
  | nil =>
    simp [getTeamIdsFrom, hlast]
  | cons p pre ih =>
    have hp : p.page_index ≠ p.page_count := hpre p (by simp)
    have ih' := ih (fun q hq => hpre q (by simp [hq]))
    simp only [List.cons_append, getTeamIdsFrom, if_neg hp, List.append_eq]
    rw [ih']
    simp [List.flatten]

/-- Concrete discovery page 1 of 2 from the spec's pagination example. -/
def samplePage1 : PaginatedItems :=
  ⟨⟨some 1⟩, ⟨some 2⟩,
    [⟨"http://example/teams/101?lang=en"⟩, ⟨"http://example/teams/102?lang=en"⟩]⟩

/-- Concrete discovery page 2 of 2 from the spec's pagination example. -/
def samplePage2 : PaginatedItems :=
  ⟨⟨some 2⟩, ⟨some 2⟩, [⟨"http://example/teams/103?lang=en"⟩]⟩

/-- Witness for C5: two pages reporting 1 of 2 and then 2 of 2 yield the
union of the ids parsed from both pages. -/
theorem c5_pagination_terminates_witness :
    getTeamIdsFrom [samplePage1, samplePage2] = some [101, 102, 103] := by
  have h := c5_pagination_terminates [samplePage1] samplePage2 []
    (by decide) (by decide)
  exact h.trans (by decide)

/-- Model of a tokio JoinError (a spawned fetch task failing to join). -/
structure JoinError where
  msg : String
deriving DecidableEq

/-- Model of a reqwest::Error (transport failure or JSON decode failure). -/
structure ReqError where
  msg : String
deriving DecidableEq

/-- Model of the fetch fan-in (main.rs 162-183): each spawned task yields
Result<Result<TeamSchedule, reqwest::Error>, JoinError>, and the
filter_map keeps exactly the Ok(Ok(_)) outcomes.  The list order stands
for the unordered completion order of `buffer_unordered`. -/
def collectSchedules
    (results : List (Except JoinError (Except ReqError TeamSchedule))) :
    List TeamSchedule :=
  results.filterMap (fun r =>
    match r with
    | Except.ok (Except.ok x) => some x
    | _ => none)

/-- fbs_team_ids (main.rs 185-193): the ids of the successfully fetched
schedules, the program's KnownTeamSet. -/
def fbsTeamIds (tss : List TeamSchedule) : List String :=
  tss.map (fun ts => ts.team.id)

/-- Competitor resolution (main.rs 211-219 and 253-261): index 0's id is
compared with the processed team's id to choose c_index, then the
competitor and the opponent are read at c_index and c_index ^ 1.  A
`none` models the out-of-bounds panic of the slice indexing. -/
def resolveCompetitors (selfId : String) (comp : Competition) :
    Option (Competitor × Competitor) :=
  match comp.competitors.get? 0 with
  | none => none
  | some c0 =>
    let cIndex : ℕ := if c0.id = selfId then 0 else 1
    match comp.competitors.get? cIndex, comp.competitors.get? (cIndex ^^^ 1) with
    | some competitor, some opponent => some (competitor, opponent)
    | _, _ => none

/-- Opponent-schedule lookup (main.rs 235-244): a plain scan that keeps
the last schedule whose team id equals the opponent's id. -/
def findOpponentSchedule (oppId : String) : List TeamSchedule → Option TeamSchedule
  | [] => none
  | ts :: rest =>
    match findOpponentSchedule oppId rest with
    | some x => some x
    | none => if ts.team.id = oppId then some ts else none

/-- One iteration of the inner baseline loop 'o_events_loop'
(main.rs 249-283).  State: (opponent_avg_scored accumulator,
opponent_avg_allowed accumulator, o_count).  `none` models a panic;
a skipped event returns the state unchanged. -/
def oEventStep (fbs : List String) (selfId oppId : String)
    (st : ℚ × ℚ × ℕ) (e : Event) : Option (ℚ × ℚ × ℕ) :=
  match e.competitions.getLast? with
  | none => some st
  | some comp =>
    match resolveCompetitors oppId comp with
    | none => none
    | some (oCompetitor, oOpponent) =>
      if oOpponent.id = selfId then some st
      else if ¬ (fbs.contains oOpponent.id) then some st
      else
        match oCompetitor.score, oOpponent.score with
        | some ocs, some oos =>
          match ocs.value.asF64, oos.value.asF64 with
          | some ocsF, some oosF =>
            some (st.1 + ocsF, st.2.1 + oosF, (st.2.2 + 1) % 256)
          | _, _ => some st
        | _, _ => some st

/-- The inner baseline loop over the opponent's events (main.rs 249-283). -/
def innerScan (fbs : List String) (selfId oppId : String)
    (st : ℚ × ℚ × ℕ) : List Event → Option (ℚ × ℚ × ℕ)
  | [] => some st
  | e :: rest =>
    match oEventStep fbs selfId oppId st e with
    | none => none
    | some st2 => innerScan fbs selfId oppId st2 rest

/-- The body of one 'events_loop' iteration up to the accumulation
(main.rs 207-289): `none` is a panic, `some none` a skipped game, and
`some (some (dd, od))` the (defense delta, offense delta) pair that the
iteration adds to the team's accumulators. -/
def gameDeltas (tss : List TeamSchedule) (fbs : List String) (selfId : String)
    (e : Event) : Option (Option (FQ × FQ)) :=
  match e.competitions.getLast? with
  | none => some none
  | some comp =>
    match resolveCompetitors selfId comp with
    | none => none
    | some (competitor, opponent) =>
      if ¬ (fbs.contains opponent.id) then some none
      else
        match competitor.score with
        | none => some none
        | some cs =>
          match opponent.score with
          | none => some none
          | some os =>
            match cs.value.asF64 with
            | none => some none
            | some csF =>
              match os.value.asF64 with
              | none => some none
              | some osF =>
                match findOpponentSchedule opponent.id tss with
                | none => some none
                | some oppTs =>
                  match innerScan fbs selfId opponent.id (0, 0, 0) oppTs.events with
                  | none => none
                  | some (scored, allowed, oCount) =>
                    some (some
                      (fqSub (fqDivNat (FQ.num scored) oCount) (FQ.num osF),
                       fqSub (FQ.num csF) (fqDivNat (FQ.num allowed) oCount)))

/-- One full 'events_loop' iteration (main.rs 207-291): compute the
per-game deltas and accumulate them.  State: (defense_rating,
offense_rating, count). -/
def eventStep (tss : List TeamSchedule) (fbs : List String) (selfId : String)
    (st : FQ × FQ × ℕ) (e : Event) : Option (FQ × FQ × ℕ) :=
  match gameDeltas tss fbs selfId e with
  | none => none
  | some none => some st
  | some (some (dd, od)) =>
    some (fqAdd st.1 dd, fqAdd st.2.1 od, (st.2.2 + 1) % 256)

/-- The 'events_loop' over a team's events (main.rs 207-291). -/
def eventsLoop (tss : List TeamSchedule) (fbs : List String) (selfId : String)
    (st : FQ × FQ × ℕ) : List Event → Option (FQ × FQ × ℕ)
  | [] => some st
  | e :: rest =>
    match eventStep tss fbs selfId st e with
    | none => none
    | some st2 => eventsLoop tss fbs selfId st2 rest

/-- The per-team rating computation (main.rs 203-301): run the events
loop from zeroed accumulators, then divide both sums by the game count. -/
def ratingOfTeam (tss : List TeamSchedule) (fbs : List String)
    (ts : TeamSchedule) : Option TeamRating :=
  match eventsLoop tss fbs ts.team.id (FQ.num 0, FQ.num 0, 0) ts.events with
  | none => none
  | some (d, o, count) =>
    some ⟨ts.team.location, fqDivNat d count, fqDivNat o count⟩

/-- The rating map over the filtered schedules (main.rs 195-302). -/
def ratingsLoop (tss : List TeamSchedule) (fbs : List String) :
    List TeamSchedule → Option (List TeamRating)
  | [] => some []
  | ts :: rest =>
    match ratingOfTeam tss fbs ts with
    | none => none
    | some r =>
      match ratingsLoop tss fbs rest with
      | none => none
      | some rs => some (r :: rs)

/-- The whole rating computation (main.rs 185-302): keep the schedules
with a nonempty events list and rate each of them against the full
collection, with KnownTeamSet = fbs_team_ids. -/
def computeRatings (tss : List TeamSchedule) : Option (List TeamRating) :=
  ratingsLoop tss (fbsTeamIds tss)
    (tss.filter (fun ts => decide (0 < ts.events.length)))

/-- Stable insertion used to model Rust's stable `slice::sort_by`: a new
element passes over the elements that must precede it (comparator gt) and
stops before the first other element, so elements comparing equal keep
their original relative order. -/
def insertOrd (cmp : TableEntry → TableEntry → Ordering) (x : TableEntry) :
    List TableEntry → List TableEntry
  | [] => [x]
  | y :: ys =>
    if cmp x y = Ordering.gt then y :: insertOrd cmp x ys else x :: y :: ys

/-- Model of `slice::sort_by` (a stable comparison sort). -/
def sortByOrd (cmp : TableEntry → TableEntry → Ordering) :
    List TableEntry → List TableEntry
  | [] => []
  | x :: xs => insertOrd cmp x (sortByOrd cmp xs)

/-- The rank-assignment loop (main.rs 320-322), writing i+1 into row i. -/
def assignRanksFrom (i : ℕ) : List TableEntry → List TableEntry
  | [] => []
  | e :: rest => ⟨i, e.team, e.overall_rating, e.defense_rating, e.offense_rating⟩
      :: assignRanksFrom (i + 1) rest

/-- The table-row projection (main.rs 304-314): rank 0 placeholder and
overall = defense + offense. -/
def entriesOf (ratings : List TeamRating) : List TableEntry :=
  ratings.map (fun r =>
    ⟨0, r.name, fqAdd r.defense_rating r.offense_rating,
      r.defense_rating, r.offense_rating⟩)

/-- The presentation pipeline before truncation (main.rs 304-334):
build rows, stable-sort ascending by overall rating and reverse, assign
1-based ranks by position, optionally re-sort by defense-only or
offense-only rating (again sort ascending then reverse), optionally
reverse for the --reverse flag. -/
def presentTableAll (ratings : List TeamRating)
    (defenseFlag offenseFlag revFlag : Bool) : List TableEntry :=
  let t1 := entriesOf ratings
  let t2 := (sortByOrd (fun a b => FQ.totalCmp a.overall_rating b.overall_rating) t1).reverse
  let t3 := assignRanksFrom 1 t2
  let t4 :=
    if defenseFlag then
      (sortByOrd (fun a b => FQ.totalCmp a.defense_rating b.defense_rating) t3).reverse
    else if offenseFlag then
      (sortByOrd (fun a b => FQ.totalCmp a.offense_rating b.offense_rating) t3).reverse
    else t3
  if revFlag then t4.reverse else t4

/-- The full presentation (main.rs 304-338), with the optional top-N
truncation (`Vec::truncate`) applied last. -/
def presentTable (ratings : List TeamRating)
    (defenseFlag offenseFlag revFlag : Bool) (top : Option ℕ) : List TableEntry :=
  match top with
  | some n => (presentTableAll ratings defenseFlag offenseFlag revFlag).take n
  | none => presentTableAll ratings defenseFlag offenseFlag revFlag

/-- Wellformedness of one event: if it has a last competition, that
competition has at least two competitors (so the slice indexing of
main.rs 211-219/253-261 cannot panic on it). -/
def wfEvent (e : Event) : Bool :=
  match e.competitions.getLast? with
  | none => true
  | some comp => decide (2 ≤ comp.competitors.length)

/-- Wellformedness of a list of events. -/
def wfEvents (events : List Event) : Bool :=
  events.all wfEvent

/-- Wellformedness of a schedule collection. -/
def wfCollection (tss : List TeamSchedule) : Bool :=
  tss.all (fun ts => wfEvents ts.events)

/-- The claim's usability conditions for a game of the team `selfId`,
stated from the spec: the last competition determines the opponent, the
opponent's id belongs to KnownTeamSet (the ids of the fetched
schedules), and both competitors' scores are present and numeric. -/
def usableGame (tss : List TeamSchedule) (selfId : String) (e : Event) : Bool :=
  match e.competitions.getLast? with
  | none => false
  | some comp =>
    match resolveCompetitors selfId comp with
    | none => false
    | some (competitor, opponent) =>
      if ¬ ((fbsTeamIds tss).contains opponent.id) then false
      else
        match competitor.score, opponent.score with
        | some cs, some os => cs.value.asF64.isSome && os.value.asF64.isSome
        | _, _ => false

/-- Whether an event of the opponent's schedule is counted by the inner
baseline loop: resolvable, not the mirror match against `selfId`, the
opponent-of-opponent inside KnownTeamSet, and both scores present and
numeric. -/
def oCountable (fbs : List String) (selfId oppId : String) (e : Event) : Bool :=
  match e.competitions.getLast? with
  | none => false
  | some comp =>
    match resolveCompetitors oppId comp with
    | none => false
    | some (oCompetitor, oOpponent) =>
      if oOpponent.id = selfId then false
      else if ¬ (fbs.contains oOpponent.id) then false
      else
        match oCompetitor.score, oOpponent.score with
        | some ocs, some oos => ocs.value.asF64.isSome && oos.value.asF64.isSome
        | _, _ => false

/-- Whether an event of the opponent's schedule is the mirror match: its
last competition resolves (with the opponent as self) to an
opponent-of-opponent whose id is the processed team's id. -/
def isMirrorGame (selfId oppId : String) (e : Event) : Bool :=
  match e.competitions.getLast? with
  | none => false
  | some comp =>
    match resolveCompetitors oppId comp with
    | none => false
    | some (_, oOpponent) => decide (oOpponent.id = selfId)

/-- Whether a game of `selfId` contributes to the rating accumulators,
read off the loop body itself. -/
def contributes (tss : List TeamSchedule) (fbs : List String) (selfId : String)
    (e : Event) : Bool :=
  match gameDeltas tss fbs selfId e with
  | some (some _) => true
  | _ => false

/-- Whether a game's offense delta, when the game contributes, is 0. -/
def offContribZero (tss : List TeamSchedule) (fbs : List String)
    (selfId : String) (e : Event) : Bool :=
  match gameDeltas tss fbs selfId e with
  | some (some p) => decide (p.2 = FQ.num 0)
  | _ => true

/-- Whether a game's defense delta, when the game contributes, is 0. -/
def defContribZero (tss : List TeamSchedule) (fbs : List String)
    (selfId : String) (e : Event) : Bool :=
  match gameDeltas tss fbs selfId e with
  | some (some p) => decide (p.1 = FQ.num 0)
  | _ => true

lemma xor_zero_one : (0 : ℕ) ^^^ 1 = 1 := by decide

lemma xor_one_one : (1 : ℕ) ^^^ 1 = 0 := by decide

lemma resolveCompetitors_of_short (selfId : String) (comp : Competition)
    (h : comp.competitors.length < 2) :
    resolveCompetitors selfId comp = none := by
  cases hl : comp.competitors with
  | nil => simp [resolveCompetitors, hl]
  | cons c0 tl =>
    cases tl with
    | nil =>
      by_cases hid : c0.id = selfId <;>
        simp [resolveCompetitors, hl, hid, xor_zero_one, xor_one_one]
    | cons c1 tl2 =>
      rw [hl] at h
      simp at h
      omega

lemma resolveCompetitors_isSome (selfId : String) (comp : Competition)
    (h : 2 ≤ comp.competitors.length) :
    (resolveCompetitors selfId comp).isSome = true := by
  cases hl : comp.competitors with
  | nil => rw [hl] at h; simp at h
  | cons c0 tl =>
    cases tl with
    | nil => rw [hl] at h; simp at h
    | cons c1 tl2 =>
      by_cases hid : c0.id = selfId <;>
        simp [resolveCompetitors, hl, hid, xor_zero_one, xor_one_one]

lemma findOpponentSchedule_mem (oppId : String) (tss : List TeamSchedule)
    (ts' : TeamSchedule) (h : findOpponentSchedule oppId tss = some ts') :
    ts' ∈ tss := by
  induction tss with
  | nil => simp [findOpponentSchedule] at h
  | cons t rest ih =>
    unfold findOpponentSchedule at h
    cases hr : findOpponentSchedule oppId rest with
    | some x =>
      rw [hr] at h
      simp at h
      subst h
      exact List.mem_cons_of_mem _ (ih hr)
    | none =>
      rw [hr] at h
      by_cases hid : t.team.id = oppId
      · rw [if_pos hid] at h
        simp at h
        subst h
        exact List.mem_cons_self _ _
      · rw [if_neg hid] at h
        simp at h

lemma fbs_contains_iff (tss : List TeamSchedule) (tid : String) :
    (fbsTeamIds tss).contains tid = true ↔ ∃ ts ∈ tss, ts.team.id = tid := by
  have h1 : (fbsTeamIds tss).contains tid = true ↔ tid ∈ fbsTeamIds tss := by simp
  rw [h1]
  simp [fbsTeamIds, List.mem_map]

lemma findOpponentSchedule_isSome (oppId : String) (tss : List TeamSchedule)
    (h : ∃ ts ∈ tss, ts.team.id = oppId) :
    (findOpponentSchedule oppId tss).isSome = true := by
  induction tss with
  | nil => simp at h
  | cons t rest ih =>
    unfold findOpponentSchedule
    cases hr : findOpponentSchedule oppId rest with
    | some x => simp
    | none =>
      by_cases hid : t.team.id = oppId
      · simp [hid]
      · rcases h with ⟨ts, hts, htid⟩
        rcases List.mem_cons.mp hts with he | hrest
        · subst he; exact absurd htid hid
        · have := ih ⟨ts, hrest, htid⟩
          rw [hr] at this
          simp at this

lemma oEventStep_of_mirror (fbs : List String) (selfId oppId : String)
    (e : Event) (st : ℚ × ℚ × ℕ)
    (h : isMirrorGame selfId oppId e = true) :
    oEventStep fbs selfId oppId st e = some st := by
  unfold isMirrorGame at h
  unfold oEventStep
  cases hl : e.competitions.getLast? with
  | none => rfl
  | some comp =>
    rw [hl] at h
    cases hr : resolveCompetitors oppId comp with
    | none => simp [hr] at h
    | some pair =>
      obtain ⟨oc, oo⟩ := pair
      simp only [hr, decide_eq_true_eq] at h
      simp [hr, h]

/-- C2: the inner baseline scan computed from the opponent's schedule is
unchanged when every mirror game (a game of the opponent whose
opponent-of-opponent is the processed team) is removed: mirror games
contribute nothing to the baseline sums or the baseline count, however
many of them the schedule holds. -/
theorem c2_mirror_match_excluded (fbs : List String) (selfId oppId : String)
    (events : List Event) (st : ℚ × ℚ × ℕ) :
    innerScan fbs selfId oppId st events
      = innerScan fbs selfId oppId st
          (events.filter (fun e => !(isMirrorGame selfId oppId e))) := by
  induction events generalizing st with
  | nil => rfl
  | cons e rest ih =>
    by_cases hm : isMirrorGame selfId oppId e = true
    · have hstep := oEventStep_of_mirror fbs selfId oppId e st hm
      simp only [innerScan, hstep, List.filter_cons, hm]
      simpa using ih st
    · have hm' : (!(isMirrorGame selfId oppId e)) = true := by
        simp [Bool.not_eq_true] at hm ⊢
        exact hm
      simp only [innerScan, List.filter_cons, hm']
      cases hstep : oEventStep fbs selfId oppId st e with
      | none => simp [innerScan, hstep]
      | some st2 => simp [innerScan, hstep, ih st2]

/-- C6: the fetch fan-in keeps exactly the successfully fetched
schedules: a schedule is in the collection iff its task completed with
Ok(Ok(_)); KnownTeamSet (fbs_team_ids) then holds exactly the successful
teams' ids; and concretely a failed join plus a failed fetch plus two
successes collect to exactly the two successes.  No failure aborts the
batch: the collection is defined for every outcome list. -/
theorem c6_fetch_isolation
    (results : List (Except JoinError (Except ReqError TeamSchedule))) :
    (∀ ts : TeamSchedule, ts ∈ collectSchedules results
        ↔ Except.ok (Except.ok ts) ∈ results)
    ∧ (∀ tid : String, tid ∈ fbsTeamIds (collectSchedules results)
        ↔ ∃ ts : TeamSchedule,
            Except.ok (Except.ok ts) ∈ results ∧ ts.team.id = tid)
    ∧ (∀ (jx : JoinError) (rx : ReqError) (y z : TeamSchedule),
        collectSchedules
          [Except.error jx, Except.ok (Except.error rx),
           Except.ok (Except.ok y), Except.ok (Except.ok z)] = [y, z]) := by
  have hmem : ∀ ts : TeamSchedule, ts ∈ collectSchedules results
      ↔ Except.ok (Except.ok ts) ∈ results := by
    intro ts
    unfold collectSchedules
    rw [List.mem_filterMap]
    constructor
    · rintro ⟨a, ha, hfa⟩
      cases a with
      | error jx => simp at hfa
      | ok inner =>
        cases inner with
        | error rx => simp at hfa
        | ok x =>
          simp at hfa
          subst hfa
          exact ha
    · intro h
      exact ⟨Except.ok (Except.ok ts), h, rfl⟩
  refine ⟨hmem, ?_, ?_⟩
  · intro tid
    unfold fbsTeamIds
    rw [List.mem_map]
    constructor
    · rintro ⟨ts, hts, hid⟩
      exact ⟨ts, (hmem ts).mp hts, hid⟩
    · rintro ⟨ts, hts, hid⟩
      exact ⟨ts, (hmem ts).mpr hts, hid⟩
  · intro jx rx y z
    rfl

lemma totalCmp_self (c : FQ) : FQ.totalCmp c c = Ordering.eq := by
  cases c with
  | nan => rfl
  | posInf => rfl
  | negInf => rfl
  | num a => simp [FQ.totalCmp]

lemma insertOrd_of_all_eq (cmp : TableEntry → TableEntry → Ordering)
    (x : TableEntry) (l : List TableEntry)
    (h : ∀ y ∈ l, cmp x y = Ordering.eq) :
    insertOrd cmp x l = x :: l := by
  cases l with
  | nil => rfl
  | cons y ys =>
    have hy := h y (by simp)
    simp [insertOrd, hy]

lemma sortByOrd_of_all_eq (cmp : TableEntry → TableEntry → Ordering)
    (l : List TableEntry)
    (h : ∀ x ∈ l, ∀ y ∈ l, cmp x y = Ordering.eq) :
    sortByOrd cmp l = l := by
  induction l with
  | nil => rfl
  | cons x xs ih =>
    have hxs : sortByOrd cmp xs = xs :=
      ih (fun a ha b hb => h a (by simp [ha]) b (by simp [hb]))
    have hins : insertOrd cmp x xs = x :: xs :=
      insertOrd_of_all_eq cmp x xs (fun y hy => h x (by simp) y (by simp [hy]))
    simp [sortByOrd, hxs, hins]

lemma insertOrd_length (cmp : TableEntry → TableEntry → Ordering)
    (x : TableEntry) (l : List TableEntry) :
    (insertOrd cmp x l).length = l.length + 1 := by
  induction l with
  | nil => rfl
  | cons y ys ih =>
    by_cases hc : cmp x y = Ordering.gt <;> simp [insertOrd, hc, ih]

lemma sortByOrd_length (cmp : TableEntry → TableEntry → Ordering)
    (l : List TableEntry) :
    (sortByOrd cmp l).length = l.length := by
  induction l with
  | nil => rfl
  | cons x xs ih => simp [sortByOrd, insertOrd_length, ih]

lemma assignRanksFrom_map_rank (i : ℕ) (l : List TableEntry) :
    (assignRanksFrom i l).map (fun e => e.rank) = List.range' i l.length := by
  induction l generalizing i with
  | nil => rfl
  | cons e rest ih => simp [assignRanksFrom, List.range'_succ, ih]

/-- C7 counterexample.  First conjunct: two rating rows "A" then "B" with
equal overall rating 2 are presented, under the default descending sort,
as "B" first — the stable ascending sort is followed by a reversal, so
equal-key entries appear in reversed input order, contradicting the
claimed preservation.  Second conjunct: under the defense-only re-sort
the rank fields read 2 then 1 while the claimed 1-based post-sort
positions are 1 then 2 — ranks are assigned before the re-sort and never
reassigned. -/
theorem c7_counterexample :
    presentTable [⟨"A", FQ.num 1, FQ.num 1⟩, ⟨"B", FQ.num 1, FQ.num 1⟩]
        false false false none
      = [⟨1, "B", FQ.num 2, FQ.num 1, FQ.num 1⟩,
         ⟨2, "A", FQ.num 2, FQ.num 1, FQ.num 1⟩]
    ∧ presentTable [⟨"A", FQ.num 2, FQ.num 0⟩, ⟨"B", FQ.num 1, FQ.num 1⟩]
        true false false none
      = [⟨2, "A", FQ.num 2, FQ.num 2, FQ.num 0⟩,
         ⟨1, "B", FQ.num 2, FQ.num 1, FQ.num 1⟩] := by
  constructor <;>
    norm_num +decide [presentTable, presentTableAll, entriesOf, sortByOrd,
      insertOrd, assignRanksFrom, FQ.totalCmp, fqAdd]

/-- C7 amended: top-N truncation is applied last and yields exactly the
first N rows of the final ordering; rows whose overall ratings are all
equal are presented, under the default sort, in reversed input order
(the stable ascending sort is followed by a reversal); and under the
default sort (no re-sort, no reversal) the rank fields are exactly the
1-based positions. -/
theorem c7_amended :
    (∀ (ratings : List TeamRating) (dFlag oFlag rFlag : Bool) (n : ℕ),
        presentTable ratings dFlag oFlag rFlag (some n)
          = (presentTable ratings dFlag oFlag rFlag none).take n)
    ∧ (∀ (ratings : List TeamRating) (c : FQ),
        (∀ e ∈ entriesOf ratings, e.overall_rating = c) →
        presentTable ratings false false false none
          = assignRanksFrom 1 (entriesOf ratings).reverse)
    ∧ (∀ ratings : List TeamRating,
        (presentTable ratings false false false none).map (fun e => e.rank)
          = List.range' 1 ratings.length) := by
  refine ⟨fun ratings dFlag oFlag rFlag n => rfl, ?_, ?_⟩
  · intro ratings c hc
    have hsort : sortByOrd
        (fun a b => FQ.totalCmp a.overall_rating b.overall_rating)
        (entriesOf ratings) = entriesOf ratings := by
      refine sortByOrd_of_all_eq _ _ (fun x hx y hy => ?_)
      rw [hc x hx, hc y hy, totalCmp_self]
    simp [presentTable, presentTableAll, hsort]
  · intro ratings
    have hlen : ((sortByOrd
        (fun a b => FQ.totalCmp a.overall_rating b.overall_rating)
        (entriesOf ratings)).reverse).length = ratings.length := by
      simp [sortByOrd_length, entriesOf]
    simp [presentTable, presentTableAll, assignRanksFrom_map_rank, hlen]

/-- Concrete two-row input (equal, NaN, overall keys) for the C7 witness. -/
def tieA : TeamRating := ⟨"A", FQ.nan, FQ.nan⟩

/-- Second concrete row for the C7 witness. -/
def tieB : TeamRating := ⟨"B", FQ.nan, FQ.nan⟩

/-- Witness for the amended C7 at a concrete two-row input. -/
theorem c7_amended_witness :
    presentTable [tieA, tieB] false false false (some 1)
        = (presentTable [tieA, tieB] false false false none).take 1
    ∧ presentTable [tieA, tieB] false false false none
        = assignRanksFrom 1 (entriesOf [tieA, tieB]).reverse
    ∧ (presentTable [tieA, tieB] false false false none).map (fun e => e.rank)
        = List.range' 1 2 :=
  ⟨c7_amended.1 [tieA, tieB] false false false 1,
   c7_amended.2.1 [tieA, tieB] FQ.nan (by decide),
   c7_amended.2.2 [tieA, tieB]⟩

lemma ratingsLoop_length (tss : List TeamSchedule) (fbs : List String)
    (l : List TeamSchedule) (res : List TeamRating)
    (h : ratingsLoop tss fbs l = some res) : res.length = l.length := by
  induction l generalizing res with
  | nil =>
    simp [ratingsLoop] at h
    simp [h]
  | cons ts rest ih =>
    unfold ratingsLoop at h
    cases hr : ratingOfTeam tss fbs ts with
    | none => rw [hr] at h; simp at h
    | some r =>
      rw [hr] at h
      cases hl : ratingsLoop tss fbs rest with
      | none => rw [hl] at h; simp at h
      | some rs =>
        rw [hl] at h
        simp at h
        subst h
        simp [ih rs hl]

lemma eventsLoop_of_all_skip (tss : List TeamSchedule) (fbs : List String)
    (selfId : String) (events : List Event) (st : FQ × FQ × ℕ)
    (h : ∀ e ∈ events, gameDeltas tss fbs selfId e = some none) :
    eventsLoop tss fbs selfId st events = some st := by
  induction events with
  | nil => rfl
  | cons e rest ih =>
    have he := h e (by simp)
    simp only [eventsLoop, eventStep, he]
    exact ih (fun e' he' => h e' (by simp [he']))

/-- Team "1" with one event against the unknown opponent "9" (both
scores absent): one event, zero usable games. -/
def zeroUsableTeam : TeamSchedule :=
  ⟨⟨"1", "Alpha"⟩, [⟨[⟨[⟨"1", none⟩, ⟨"9", none⟩]⟩]⟩]⟩

/-- C1 counterexample: a team with one event but zero usable games after
filtering is NOT excluded from computeRatings' output — it is emitted
with NaN defense and offense ratings (count 0 makes both divisions
0.0/0.0), and its NaN row is a row of the presented table. -/
theorem c1_counterexample :
    computeRatings [zeroUsableTeam] = some [⟨"Alpha", FQ.nan, FQ.nan⟩]
    ∧ (⟨1, "Alpha", FQ.nan, FQ.nan, FQ.nan⟩ : TableEntry) ∈
        presentTable [⟨"Alpha", FQ.nan, FQ.nan⟩] false false false none := by
  constructor
  · decide
  · decide

/-- C1 amended: the exclusion the program applies is by emptiness of the
events list, not by usable-game count — the output has exactly one
rating per team with a nonempty events list; and a team all of whose
events are skipped by the filters (zero usable games but a nonempty
events list) receives a TeamRating whose defense and offense ratings are
NaN, rather than being omitted. -/
theorem c1_amended :
    (∀ (tss : List TeamSchedule) (res : List TeamRating),
        computeRatings tss = some res →
        res.length
          = (tss.filter (fun ts => decide (0 < ts.events.length))).length)
    ∧ (∀ (tss : List TeamSchedule) (fbs : List String) (ts : TeamSchedule),
        (∀ e ∈ ts.events, gameDeltas tss fbs ts.team.id e = some none) →
        ratingOfTeam tss fbs ts = some ⟨ts.team.location, FQ.nan, FQ.nan⟩) := by
  constructor
  · intro tss res h
    exact ratingsLoop_length tss (fbsTeamIds tss) _ res h
  · intro tss fbs ts h
    have hloop := eventsLoop_of_all_skip tss fbs ts.team.id ts.events
      (FQ.num 0, FQ.num 0, 0) h
    simp [ratingOfTeam, hloop, fqDivNat]

/-- Witness for the amended C1 at the concrete one-team collection. -/
theorem c1_amended_witness :
    (1 : ℕ) = ([zeroUsableTeam].filter
        (fun ts => decide (0 < ts.events.length))).length
    ∧ ratingOfTeam [zeroUsableTeam] (fbsTeamIds [zeroUsableTeam]) zeroUsableTeam
        = some ⟨"Alpha", FQ.nan, FQ.nan⟩ :=
  ⟨c1_amended.1 [zeroUsableTeam] [⟨"Alpha", FQ.nan, FQ.nan⟩] (by decide),
   c1_amended.2 [zeroUsableTeam] (fbsTeamIds [zeroUsableTeam]) zeroUsableTeam
     (by decide)⟩

lemma fqAdd_nan (x : FQ) : fqAdd x FQ.nan = FQ.nan := by
  cases x <;> rfl

/-- C4: a usable game of the processed team against an opponent none of
whose games survives the inner baseline scan (the scan returns its
initial zeroed state, so zero games were counted) contributes NaN: both
baseline divisions are 0.0/0.0, the per-game deltas are NaN, the NaN is
added to both accumulators (making them NaN whatever they held), and
the game counter is still incremented — the game is neither skipped nor
an error. -/
theorem c4_empty_baseline_nan (tss : List TeamSchedule) (fbs : List String)
    (selfId : String) (e : Event) (comp : Competition)
    (competitor opponent : Competitor) (cs os : CompetitorScore) (csF osF : ℚ)
    (oppTs : TeamSchedule) (st : FQ × FQ × ℕ)
    (h1 : e.competitions.getLast? = some comp)
    (h2 : resolveCompetitors selfId comp = some (competitor, opponent))
    (h3 : fbs.contains opponent.id = true)
    (h4 : competitor.score = some cs)
    (h5 : opponent.score = some os)
    (h6 : cs.value.asF64 = some csF)
    (h7 : os.value.asF64 = some osF)
    (h8 : findOpponentSchedule opponent.id tss = some oppTs)
    (h9 : innerScan fbs selfId opponent.id (0, 0, 0) oppTs.events
        = some (0, 0, 0)) :
    eventStep tss fbs selfId st e
      = some (FQ.nan, FQ.nan, (st.2.2 + 1) % 256) := by
  have hg : gameDeltas tss fbs selfId e = some (some (FQ.nan, FQ.nan)) := by
    unfold gameDeltas
    rw [h1]
    simp only [h2, h3, h4, h5, h6, h7, h8, h9]
    simp [fqDivNat, fqSub]
  simp [eventStep, hg, fqAdd_nan]

/-- Team "1" beating team "2" 20-10 (the only game of its schedule). -/
def c4TeamA : TeamSchedule :=
  ⟨⟨"1", "Alpha"⟩,
    [⟨[⟨[⟨"1", some ⟨⟨some 20⟩⟩⟩, ⟨"2", some ⟨⟨some 10⟩⟩⟩]⟩]⟩]⟩

/-- Team "2", whose only game is the mirror match against team "1", so
its baseline scan (relative to team "1") counts zero games. -/
def c4TeamB : TeamSchedule :=
  ⟨⟨"2", "Beta"⟩,
    [⟨[⟨[⟨"2", some ⟨⟨some 10⟩⟩⟩, ⟨"1", some ⟨⟨some 20⟩⟩⟩]⟩]⟩]⟩

/-- Witness for C4 at the concrete two-team collection: team "1"'s only
game is usable, team "2"'s baseline is empty, and the events-loop step
turns the zeroed accumulators into NaN with the counter at 1. -/
theorem c4_empty_baseline_nan_witness :
    eventStep [c4TeamA, c4TeamB] (fbsTeamIds [c4TeamA, c4TeamB]) "1"
        (FQ.num 0, FQ.num 0, 0)
        ⟨[⟨[⟨"1", some ⟨⟨some 20⟩⟩⟩, ⟨"2", some ⟨⟨some 10⟩⟩⟩]⟩]⟩
      = some (FQ.nan, FQ.nan, 1) :=
  c4_empty_baseline_nan [c4TeamA, c4TeamB] (fbsTeamIds [c4TeamA, c4TeamB]) "1"
    ⟨[⟨[⟨"1", some ⟨⟨some 20⟩⟩⟩, ⟨"2", some ⟨⟨some 10⟩⟩⟩]⟩]⟩
    ⟨[⟨"1", some ⟨⟨some 20⟩⟩⟩, ⟨"2", some ⟨⟨some 10⟩⟩⟩]⟩
    ⟨"1", some ⟨⟨some 20⟩⟩⟩ ⟨"2", some ⟨⟨some 10⟩⟩⟩
    ⟨⟨some 20⟩⟩ ⟨⟨some 10⟩⟩ 20 10 c4TeamB
    (FQ.num 0, FQ.num 0, 0)
    (by decide) (by decide) (by decide) (by decide) (by decide)
    (by decide) (by decide) (by decide) (by decide)

lemma wfEvents_cons (e : Event) (rest : List Event)
    (h : wfEvents (e :: rest) = true) :
    wfEvent e = true ∧ wfEvents rest = true := by
  unfold wfEvents at h ⊢
  rw [List.all_cons, Bool.and_eq_true] at h
  exact h

lemma oEventStep_isSome (fbs : List String) (selfId oppId : String)
    (st : ℚ × ℚ × ℕ) (e : Event) (hwf : wfEvent e = true) :
    ∃ st2, oEventStep fbs selfId oppId st e = some st2 := by
  unfold wfEvent at hwf
  unfold oEventStep
  cases hl : e.competitions.getLast? with
  | none => exact ⟨st, rfl⟩
  | some comp =>
    rw [hl] at hwf
    simp only [decide_eq_true_eq] at hwf
    have hres := resolveCompetitors_isSome oppId comp hwf
    cases hr : resolveCompetitors oppId comp with
    | none => rw [hr] at hres; simp at hres
    | some pair =>
      obtain ⟨oc, oo⟩ := pair
      simp only [hr]
      by_cases hm : oo.id = selfId
      · exact ⟨st, by simp [hm]⟩
      · simp only [if_neg hm]
        cases hcon : fbs.contains oo.id with
        | false => exact ⟨st, by simp⟩
        | true =>
          rw [if_neg (by simp)]
          cases hocs : oc.score with
          | none => exact ⟨st, by simp⟩
          | some ocs =>
            cases hoos : oo.score with
            | none => exact ⟨st, by simp⟩
            | some oos =>
              cases hf1 : ocs.value.asF64 with
              | none => exact ⟨st, by simp [hf1]⟩
              | some ocsF =>
                cases hf2 : oos.value.asF64 with
                | none => exact ⟨st, by simp [hf1, hf2]⟩
                | some oosF =>
                  exact ⟨(st.1 + ocsF, st.2.1 + oosF, (st.2.2 + 1) % 256),
                    by simp [hf1, hf2]⟩

lemma innerScan_isSome (fbs : List String) (selfId oppId : String)
    (events : List Event) (st : ℚ × ℚ × ℕ)
    (hwf : wfEvents events = true) :
    ∃ st2, innerScan fbs selfId oppId st events = some st2 := by
  induction events generalizing st with
  | nil => exact ⟨st, rfl⟩
  | cons e rest ih =>
    obtain ⟨hwfe, hwfr⟩ := wfEvents_cons e rest hwf
    obtain ⟨st2, hst2⟩ := oEventStep_isSome fbs selfId oppId st e hwfe
    obtain ⟨st3, hst3⟩ := ih st2 hwfr
    exact ⟨st3, by simp [innerScan, hst2, hst3]⟩

lemma gameDeltas_ne_none (tss : List TeamSchedule) (fbs : List String)
    (selfId : String) (e : Event)
    (hwf : wfEvent e = true) (hwfc : wfCollection tss = true) :
    gameDeltas tss fbs selfId e ≠ none := by
  unfold wfEvent at hwf
  unfold gameDeltas
  cases hl : e.competitions.getLast? with
  | none => simp
  | some comp =>
    rw [hl] at hwf
    simp only [decide_eq_true_eq] at hwf
    have hres := resolveCompetitors_isSome selfId comp hwf
    cases hr : resolveCompetitors selfId comp with
    | none => rw [hr] at hres; simp at hres
    | some pair =>
      obtain ⟨competitor, opponent⟩ := pair
      simp only [hr]
      cases hcon : fbs.contains opponent.id with
      | false => simp
      | true =>
        rw [if_neg (by simp)]
        cases hs1 : competitor.score with
        | none => simp
        | some cs =>
          cases hs2 : opponent.score with
          | none => simp
          | some os =>
            cases hf1 : cs.value.asF64 with
            | none => simp [hf1]
            | some csF =>
              cases hf2 : os.value.asF64 with
              | none => simp [hf1, hf2]
              | some osF =>
                cases hfind : findOpponentSchedule opponent.id tss with
                | none => simp [hf1, hf2, hfind]
                | some oppTs =>
                  have hmem := findOpponentSchedule_mem opponent.id tss oppTs hfind
                  have hwfo : wfEvents oppTs.events = true :=
                    (List.all_eq_true.mp hwfc) oppTs hmem
                  obtain ⟨st2, hst2⟩ :=
                    innerScan_isSome fbs selfId opponent.id oppTs.events (0, 0, 0) hwfo
                  obtain ⟨s, a, c⟩ := st2
                  simp only [Prod.mk_zero_zero] at hst2
                  simp [hf1, hf2, hfind, hst2]

lemma gameDeltas_char (tss : List TeamSchedule) (selfId : String) (e : Event)
    (hwf : wfEvent e = true) (hwfc : wfCollection tss = true) :
    (usableGame tss selfId e = true ∧
       ∃ p, gameDeltas tss (fbsTeamIds tss) selfId e = some (some p))
    ∨ (usableGame tss selfId e = false ∧
       gameDeltas tss (fbsTeamIds tss) selfId e = some none) := by
  unfold wfEvent at hwf
  unfold usableGame gameDeltas
  cases hl : e.competitions.getLast? with
  | none => right; exact ⟨rfl, rfl⟩
  | some comp =>
    rw [hl] at hwf
    simp only [decide_eq_true_eq] at hwf
    have hres := resolveCompetitors_isSome selfId comp hwf
    cases hr : resolveCompetitors selfId comp with
    | none => rw [hr] at hres; simp at hres
    | some pair =>
      obtain ⟨competitor, opponent⟩ := pair
      simp only [hr]
      cases hcon : (fbsTeamIds tss).contains opponent.id with
      | false => right; constructor <;> simp
      | true =>
        rw [if_neg (by simp), if_neg (by simp)]
        cases hs1 : competitor.score with
        | none => right; exact ⟨rfl, rfl⟩
        | some cs =>
          cases hs2 : opponent.score with
          | none => right; exact ⟨rfl, rfl⟩
          | some os =>
            cases hf1 : cs.value.asF64 with
            | none => right; constructor <;> simp [hf1]
            | some csF =>
              cases hf2 : os.value.asF64 with
              | none => right; constructor <;> simp [hf1, hf2]
              | some osF =>
                have hfind0 : (findOpponentSchedule opponent.id tss).isSome = true :=
                  findOpponentSchedule_isSome opponent.id tss
                    ((fbs_contains_iff tss opponent.id).mp hcon)
                cases hfind : findOpponentSchedule opponent.id tss with
                | none => rw [hfind] at hfind0; simp at hfind0
                | some oppTs =>
                  have hmem := findOpponentSchedule_mem opponent.id tss oppTs hfind
                  have hwfo : wfEvents oppTs.events = true :=
                    (List.all_eq_true.mp hwfc) oppTs hmem
                  obtain ⟨st2, hst2⟩ := innerScan_isSome (fbsTeamIds tss) selfId
                    opponent.id oppTs.events (0, 0, 0) hwfo
                  obtain ⟨s, a, c⟩ := st2
                  simp only [Prod.mk_zero_zero] at hst2
                  left
                  constructor
                  · simp [hf1, hf2]
                  · exact ⟨(fqSub (fqDivNat (FQ.num s) c) (FQ.num osF),
                      fqSub (FQ.num csF) (fqDivNat (FQ.num a) c)),
                      by simp [hf1, hf2, hfind, hst2]⟩

/-- C3: with KnownTeamSet = fbs_team_ids, a game of any team's events
loop leaves the rating state unchanged exactly when it fails the
usability conditions (last competition resolves the opponent, the
opponent's id is among the fetched schedules' ids, both scores present
and numeric); a game meeting all of them adds its two deltas and
increments the game counter. -/
theorem c3_contribution_iff (tss : List TeamSchedule) (selfId : String)
    (e : Event) (st : FQ × FQ × ℕ)
    (hwf : wfEvent e = true) (hwfc : wfCollection tss = true) :
    (eventStep tss (fbsTeamIds tss) selfId st e = some st
        ↔ usableGame tss selfId e = false)
    ∧ (usableGame tss selfId e = true →
        ∃ dd od, eventStep tss (fbsTeamIds tss) selfId st e
          = some (fqAdd st.1 dd, fqAdd st.2.1 od, (st.2.2 + 1) % 256)) := by
  rcases gameDeltas_char tss selfId e hwf hwfc with ⟨hu, p, hg⟩ | ⟨hu, hg⟩
  · obtain ⟨dd, od⟩ := p
    constructor
    · rw [hu]
      constructor
      · intro h
        exfalso
        unfold eventStep at h
        rw [hg] at h
        simp only [Option.some.injEq] at h
        have h3 : (st.2.2 + 1) % 256 = st.2.2 := by
          have := congrArg (fun x : FQ × FQ × ℕ => x.2.2) h
          simpa using this
        omega
      · intro h
        simp at h
    · intro _
      exact ⟨dd, od, by unfold eventStep; rw [hg]⟩
  · constructor
    · rw [hu]
      unfold eventStep
      rw [hg]
      simp
    · intro h
      rw [hu] at h
      simp at h

/-- Witness for C3: team "1"'s game against "2" meets all usability
conditions and contributes deltas and a counter increment. -/
theorem c3_contribution_iff_witness :
    ∃ dd od, eventStep [c4TeamA, c4TeamB] (fbsTeamIds [c4TeamA, c4TeamB]) "1"
        (FQ.num 0, FQ.num 0, 0)
        ⟨[⟨[⟨"1", some ⟨⟨some 20⟩⟩⟩, ⟨"2", some ⟨⟨some 10⟩⟩⟩]⟩]⟩
      = some (fqAdd (FQ.num 0) dd, fqAdd (FQ.num 0) od, (0 + 1) % 256) :=
  (c3_contribution_iff [c4TeamA, c4TeamB] "1"
    ⟨[⟨[⟨"1", some ⟨⟨some 20⟩⟩⟩, ⟨"2", some ⟨⟨some 10⟩⟩⟩]⟩]⟩
    (FQ.num 0, FQ.num 0, 0) (by decide) (by decide)).2 (by decide)

lemma eventsLoop_count (tss : List TeamSchedule) (fbs : List String)
    (selfId : String) (events : List Event) :
    ∀ st : FQ × FQ × ℕ,
    (∀ e ∈ events, gameDeltas tss fbs selfId e ≠ none) →
    st.2.2 < 256 →
    ∃ d o, eventsLoop tss fbs selfId st events
      = some (d, o,
          (st.2.2
            + (events.filter (fun e => contributes tss fbs selfId e)).length)
          % 256) := by
  induction events with
  | nil =>
    intro st _ hlt
    refine ⟨st.1, st.2.1, ?_⟩
    simp [eventsLoop, Nat.mod_eq_of_lt hlt]
  | cons e rest ih =>
    intro st hne hlt
    cases hg : gameDeltas tss fbs selfId e with
    | none => exact absurd hg (hne e (by simp))
    | some w =>
      cases w with
      | none =>
        have hco : contributes tss fbs selfId e = false := by
          unfold contributes
          rw [hg]
        obtain ⟨d, o, hrec⟩ := ih st (fun e' he' => hne e' (by simp [he'])) hlt
        refine ⟨d, o, ?_⟩
        simp only [eventsLoop, eventStep, hg]
        rw [hrec]
        simp [List.filter_cons, hco]
      | some p =>
        obtain ⟨dd, od⟩ := p
        have hco : contributes tss fbs selfId e = true := by
          unfold contributes
          rw [hg]
        have hlt2 : ((st.2.2 + 1) % 256) < 256 := Nat.mod_lt _ (by omega)
        obtain ⟨d, o, hrec⟩ := ih
          (fqAdd st.1 dd, fqAdd st.2.1 od, (st.2.2 + 1) % 256)
          (fun e' he' => hne e' (by simp [he'])) hlt2
        refine ⟨d, o, ?_⟩
        simp only [eventsLoop, eventStep, hg]
        rw [hrec]
        have harith : ∀ k : ℕ, ((st.2.2 + 1) % 256 + k) % 256
            = (st.2.2 + (k + 1)) % 256 := by
          intro k
          omega
        simp [List.filter_cons, hco, harith]

lemma oEventStep_char (fbs : List String) (selfId oppId : String)
    (st : ℚ × ℚ × ℕ) (e : Event) (hwf : wfEvent e = true) :
    (oCountable fbs selfId oppId e = true ∧
       ∃ x y, oEventStep fbs selfId oppId st e
         = some (st.1 + x, st.2.1 + y, (st.2.2 + 1) % 256))
    ∨ (oCountable fbs selfId oppId e = false ∧
       oEventStep fbs selfId oppId st e = some st) := by
  unfold wfEvent at hwf
  unfold oCountable oEventStep
  cases hl : e.competitions.getLast? with
  | none => right; exact ⟨rfl, rfl⟩
  | some comp =>
    rw [hl] at hwf
    simp only [decide_eq_true_eq] at hwf
    have hres := resolveCompetitors_isSome oppId comp hwf
    cases hr : resolveCompetitors oppId comp with
    | none => rw [hr] at hres; simp at hres
    | some pair =>
      obtain ⟨oc, oo⟩ := pair
      simp only [hr]
      by_cases hm : oo.id = selfId
      · right; constructor <;> simp [hm]
      · rw [if_neg hm, if_neg hm]
        cases hcon : fbs.contains oo.id with
        | false => right; constructor <;> simp
        | true =>
          rw [if_neg (by simp), if_neg (by simp)]
          cases hocs : oc.score with
          | none => right; exact ⟨rfl, rfl⟩
          | some ocs =>
            cases hoos : oo.score with
            | none => right; exact ⟨rfl, rfl⟩
            | some oos =>
              cases hf1 : ocs.value.asF64 with
              | none => right; constructor <;> simp [hf1]
              | some ocsF =>
                cases hf2 : oos.value.asF64 with
                | none => right; constructor <;> simp [hf1, hf2]
                | some oosF =>
                  left
                  constructor
                  · simp [hf1, hf2]
                  · exact ⟨ocsF, oosF, by simp [hf1, hf2]⟩

lemma innerScan_count (fbs : List String) (selfId oppId : String)
    (events : List Event) :
    ∀ st : ℚ × ℚ × ℕ,
    wfEvents events = true →
    st.2.2 < 256 →
    ∃ s a, innerScan fbs selfId oppId st events
      = some (s, a,
          (st.2.2
            + (events.filter (fun e => oCountable fbs selfId oppId e)).length)
          % 256) := by
  induction events with
  | nil =>
    intro st _ hlt
    refine ⟨st.1, st.2.1, ?_⟩
    simp [innerScan, Nat.mod_eq_of_lt hlt]
  | cons e rest ih =>
    intro st hwf hlt
    obtain ⟨hwfe, hwfr⟩ := wfEvents_cons e rest hwf
    rcases oEventStep_char fbs selfId oppId st e hwfe with ⟨hco, x, y, hstep⟩
      | ⟨hco, hstep⟩
    · have hlt2 : ((st.2.2 + 1) % 256) < 256 := Nat.mod_lt _ (by omega)
      obtain ⟨s, a, hrec⟩ := ih (st.1 + x, st.2.1 + y, (st.2.2 + 1) % 256)
        hwfr hlt2
      refine ⟨s, a, ?_⟩
      simp only [innerScan, hstep]
      rw [hrec]
      have harith : ∀ k : ℕ, ((st.2.2 + 1) % 256 + k) % 256
          = (st.2.2 + (k + 1)) % 256 := by
        intro k
        omega
      simp [List.filter_cons, hco, harith]
    · obtain ⟨s, a, hrec⟩ := ih st hwfr hlt
      refine ⟨s, a, ?_⟩
      simp only [innerScan, hstep]
      rw [hrec]
      simp [List.filter_cons, hco]

/-- C10: both game counters follow 8-bit wrapping arithmetic.  The
events-loop counter ends at (number of contributing games) mod 256 and
the inner baseline counter at (number of countable opponent games) mod
256, so both are exact for at most 255 counted games per scan and wrap
past 255 (with 256 counted games the divisor becomes 0 and the ratings
become NaN or an infinity rather than the average). -/
theorem c10_u8_counters :
    (∀ (tss : List TeamSchedule) (selfId : String) (events : List Event),
        (∀ e ∈ events, gameDeltas tss (fbsTeamIds tss) selfId e ≠ none) →
        ∃ d o, eventsLoop tss (fbsTeamIds tss) selfId
            (FQ.num 0, FQ.num 0, 0) events
          = some (d, o,
              (events.filter
                (fun e => contributes tss (fbsTeamIds tss) selfId e)).length
              % 256))
    ∧ (∀ (fbs : List String) (selfId oppId : String) (events : List Event),
        wfEvents events = true →
        ∃ s a, innerScan fbs selfId oppId (0, 0, 0) events
          = some (s, a,
              (events.filter (fun e => oCountable fbs selfId oppId e)).length
              % 256)) := by
  constructor
  · intro tss selfId events hne
    have h := eventsLoop_count tss (fbsTeamIds tss) selfId events
      (FQ.num 0, FQ.num 0, 0) hne (by decide)
    simpa using h
  · intro fbs selfId oppId events hwf
    have h := innerScan_count fbs selfId oppId events (0, 0, 0) hwf (by decide)
    simpa using h

/-- Witness for C10 at the concrete two-team collection. -/
theorem c10_u8_counters_witness :
    (∃ d o, eventsLoop [c4TeamA, c4TeamB] (fbsTeamIds [c4TeamA, c4TeamB]) "1"
        (FQ.num 0, FQ.num 0, 0) c4TeamA.events
      = some (d, o,
          (c4TeamA.events.filter
            (fun e => contributes [c4TeamA, c4TeamB]
              (fbsTeamIds [c4TeamA, c4TeamB]) "1" e)).length % 256))
    ∧ (∃ s a, innerScan (fbsTeamIds [c4TeamA, c4TeamB]) "1" "2" (0, 0, 0)
        c4TeamB.events
      = some (s, a,
          (c4TeamB.events.filter
            (fun e => oCountable (fbsTeamIds [c4TeamA, c4TeamB]) "1" "2" e)).length
          % 256)) :=
  ⟨c10_u8_counters.1 [c4TeamA, c4TeamB] "1" c4TeamA.events (by decide),
   c10_u8_counters.2 (fbsTeamIds [c4TeamA, c4TeamB]) "1" "2" c4TeamB.events
     (by decide)⟩

lemma eventsLoop_none_of_mem (tss : List TeamSchedule) (fbs : List String)
    (selfId : String) :
    ∀ events : List Event, ∀ e ∈ events,
    gameDeltas tss fbs selfId e = none →
    ∀ st, eventsLoop tss fbs selfId st events = none := by
  intro events
  induction events with
  | nil => intro e he; simp at he
  | cons e' rest ih =>
    intro e he hg st
    rcases List.mem_cons.mp he with heq | hrest
    · subst heq
      simp [eventsLoop, eventStep, hg]
    · cases hg' : gameDeltas tss fbs selfId e' with
      | none => simp [eventsLoop, eventStep, hg']
      | some w =>
        cases w with
        | none => simp [eventsLoop, eventStep, hg', ih e hrest hg st]
        | some p =>
          obtain ⟨dd, od⟩ := p
          simp [eventsLoop, eventStep, hg', ih e hrest hg]

lemma ratingsLoop_none_of_mem (tss : List TeamSchedule) (fbs : List String) :
    ∀ l : List TeamSchedule, ∀ ts ∈ l,
    ratingOfTeam tss fbs ts = none → ratingsLoop tss fbs l = none := by
  intro l
  induction l with
  | nil => intro ts hts; simp at hts
  | cons t rest ih =>
    intro ts hts hr
    rcases List.mem_cons.mp hts with heq | hrest
    · subst heq
      simp [ratingsLoop, hr]
    · cases hr' : ratingOfTeam tss fbs t with
      | none => simp [ratingsLoop, hr']
      | some r => simp [ratingsLoop, hr', ih ts hrest hr]

lemma ratingsLoop_isSome (tss : List TeamSchedule) (fbs : List String) :
    ∀ l : List TeamSchedule,
    (∀ ts ∈ l, (ratingOfTeam tss fbs ts).isSome = true) →
    (ratingsLoop tss fbs l).isSome = true := by
  intro l
  induction l with
  | nil => intro _; rfl
  | cons t rest ih =>
    intro h
    have ht := h t (by simp)
    cases hr : ratingOfTeam tss fbs t with
    | none => rw [hr] at ht; simp at ht
    | some r =>
      have hrest := ih (fun ts hts => h ts (by simp [hts]))
      cases hl : ratingsLoop tss fbs rest with
      | none => rw [hl] at hrest; simp at hrest
      | some rs => simp [ratingsLoop, hr, hl]

lemma ratingOfTeam_isSome (tss : List TeamSchedule) (fbs : List String)
    (ts : TeamSchedule)
    (hne : ∀ e ∈ ts.events, gameDeltas tss fbs ts.team.id e ≠ none) :
    (ratingOfTeam tss fbs ts).isSome = true := by
  obtain ⟨d, o, h⟩ := eventsLoop_count tss fbs ts.team.id ts.events
    (FQ.num 0, FQ.num 0, 0) hne (by decide)
  unfold ratingOfTeam
  rw [h]
  rfl

/-- C9: the competitor indexing is unchecked — any input holding a game
whose last competition has fewer than two competitors makes the rating
computation panic (modelled as `none`); and when every last competition
of every fetched schedule has at least two competitors, no indexing is
out of bounds and the computation produces a result. -/
theorem c9_indexing_panic :
    (∀ (tss : List TeamSchedule) (ts : TeamSchedule) (e : Event)
        (comp : Competition),
        ts ∈ tss → e ∈ ts.events → e.competitions.getLast? = some comp →
        comp.competitors.length < 2 → computeRatings tss = none)
    ∧ (∀ tss : List TeamSchedule, wfCollection tss = true →
        (computeRatings tss).isSome = true) := by
  constructor
  · intro tss ts e comp hts he hl hlen
    have hg : gameDeltas tss (fbsTeamIds tss) ts.team.id e = none := by
      unfold gameDeltas
      simp only [hl, resolveCompetitors_of_short ts.team.id comp hlen]
    have hrate : ratingOfTeam tss (fbsTeamIds tss) ts = none := by
      unfold ratingOfTeam
      rw [eventsLoop_none_of_mem tss (fbsTeamIds tss) ts.team.id ts.events
        e he hg _]
    have hmem : ts ∈ tss.filter (fun ts => decide (0 < ts.events.length)) := by
      rw [List.mem_filter]
      refine ⟨hts, ?_⟩
      simp only [decide_eq_true_eq]
      exact List.length_pos.mpr (List.ne_nil_of_mem he)
    unfold computeRatings
    exact ratingsLoop_none_of_mem tss (fbsTeamIds tss) _ ts hmem hrate
  · intro tss hwfc
    unfold computeRatings
    apply ratingsLoop_isSome
    intro ts hts
    have hts' : ts ∈ tss := (List.mem_filter.mp hts).1
    have hwfe : wfEvents ts.events = true := (List.all_eq_true.mp hwfc) ts hts'
    apply ratingOfTeam_isSome
    intro e he
    exact gameDeltas_ne_none tss (fbsTeamIds tss) ts.team.id e
      ((List.all_eq_true.mp hwfe) e he) hwfc

/-- Team "1" whose only game's last competition has a single competitor. -/
def shortCompTeam : TeamSchedule :=
  ⟨⟨"1", "Alpha"⟩, [⟨[⟨[⟨"1", none⟩]⟩]⟩]⟩

/-- Witness for C9: the one-competitor competition panics the
computation, and a wellformed collection computes a result. -/
theorem c9_indexing_panic_witness :
    computeRatings [shortCompTeam] = none
    ∧ (computeRatings [zeroUsableTeam]).isSome = true :=
  ⟨c9_indexing_panic.1 [shortCompTeam] shortCompTeam ⟨[⟨[⟨"1", none⟩]⟩]⟩
      ⟨[⟨"1", none⟩]⟩ (by decide) (by decide) (by decide) (by decide),
   c9_indexing_panic.2 [zeroUsableTeam] (by decide)⟩

lemma eventsLoop_off_zero (tss : List TeamSchedule) (fbs : List String)
    (selfId : String) :
    ∀ events : List Event, ∀ st fin : FQ × FQ × ℕ,
    eventsLoop tss fbs selfId st events = some fin →
    (∀ e ∈ events, offContribZero tss fbs selfId e = true) →
    st.2.1 = FQ.num 0 → fin.2.1 = FQ.num 0 := by
  intro events
  induction events with
  | nil =>
    intro st fin h _ hz
    simp [eventsLoop] at h
    rw [← h]
    exact hz
  | cons e rest ih =>
    intro st fin h hall hz
    cases hg : gameDeltas tss fbs selfId e with
    | none => simp [eventsLoop, eventStep, hg] at h
    | some w =>
      cases w with
      | none =>
        simp only [eventsLoop, eventStep, hg] at h
        exact ih st fin h (fun e' he' => hall e' (by simp [he'])) hz
      | some p =>
        obtain ⟨dd, od⟩ := p
        have hodz : od = FQ.num 0 := by
          have hh := hall e (by simp)
          unfold offContribZero at hh
          rw [hg] at hh
          simpa using hh
        simp only [eventsLoop, eventStep, hg] at h
        refine ih _ fin h (fun e' he' => hall e' (by simp [he'])) ?_
        simp [hz, hodz, fqAdd]

lemma eventsLoop_def_zero (tss : List TeamSchedule) (fbs : List String)
    (selfId : String) :
    ∀ events : List Event, ∀ st fin : FQ × FQ × ℕ,
    eventsLoop tss fbs selfId st events = some fin →
    (∀ e ∈ events, defContribZero tss fbs selfId e = true) →
    st.1 = FQ.num 0 → fin.1 = FQ.num 0 := by
  intro events
  induction events with
  | nil =>
    intro st fin h _ hz
    simp [eventsLoop] at h
    rw [← h]
    exact hz
  | cons e rest ih =>
    intro st fin h hall hz
    cases hg : gameDeltas tss fbs selfId e with
    | none => simp [eventsLoop, eventStep, hg] at h
    | some w =>
      cases w with
      | none =>
        simp only [eventsLoop, eventStep, hg] at h
        exact ih st fin h (fun e' he' => hall e' (by simp [he'])) hz
      | some p =>
        obtain ⟨dd, od⟩ := p
        have hddz : dd = FQ.num 0 := by
          have hh := hall e (by simp)
          unfold defContribZero at hh
          rw [hg] at hh
          simpa using hh
        simp only [eventsLoop, eventStep, hg] at h
        refine ih _ fin h (fun e' he' => hall e' (by simp [he'])) ?_
        simp [hz, hddz, fqAdd]

/-- C8: for a team with at least one and at most 255 contributing games,
if every contributing game's offense delta (the team's score minus the
opponent's baseline average allowed) is 0 then the offense rating is
exactly 0; symmetrically, if every contributing game's defense delta
(the opponent's baseline average scored minus its actual score) is 0
then the defense rating is exactly 0. -/
theorem c8_zero_rating (tss : List TeamSchedule) (ts : TeamSchedule)
    (hne : ∀ e ∈ ts.events,
        gameDeltas tss (fbsTeamIds tss) ts.team.id e ≠ none)
    (hkpos : 0 < (ts.events.filter
        (fun e => contributes tss (fbsTeamIds tss) ts.team.id e)).length)
    (hklt : (ts.events.filter
        (fun e => contributes tss (fbsTeamIds tss) ts.team.id e)).length < 256) :
    ((∀ e ∈ ts.events,
        offContribZero tss (fbsTeamIds tss) ts.team.id e = true) →
      ∃ r, ratingOfTeam tss (fbsTeamIds tss) ts = some r
        ∧ r.offense_rating = FQ.num 0)
    ∧ ((∀ e ∈ ts.events,
        defContribZero tss (fbsTeamIds tss) ts.team.id e = true) →
      ∃ r, ratingOfTeam tss (fbsTeamIds tss) ts = some r
        ∧ r.defense_rating = FQ.num 0) := by
  obtain ⟨d, o, hloop⟩ := eventsLoop_count tss (fbsTeamIds tss) ts.team.id
    ts.events (FQ.num 0, FQ.num 0, 0) hne (by decide)
  have h0 : ((FQ.num 0, FQ.num 0, 0) : FQ × FQ × ℕ).2.2 = 0 := rfl
  rw [h0] at hloop
  have hk : (0 + (ts.events.filter
      (fun e => contributes tss (fbsTeamIds tss) ts.team.id e)).length) % 256
      = (ts.events.filter
          (fun e => contributes tss (fbsTeamIds tss) ts.team.id e)).length := by
    omega
  rw [hk] at hloop
  have hkne : (ts.events.filter
      (fun e => contributes tss (fbsTeamIds tss) ts.team.id e)).length ≠ 0 := by
    omega
  constructor
  · intro hz
    have ho : o = FQ.num 0 := by
      have hh := eventsLoop_off_zero tss (fbsTeamIds tss) ts.team.id ts.events
        (FQ.num 0, FQ.num 0, 0) _ hloop hz rfl
      simpa using hh
    refine ⟨⟨ts.team.location,
      fqDivNat d (ts.events.filter
        (fun e => contributes tss (fbsTeamIds tss) ts.team.id e)).length,
      fqDivNat o (ts.events.filter
        (fun e => contributes tss (fbsTeamIds tss) ts.team.id e)).length⟩,
      ?_, ?_⟩
    · unfold ratingOfTeam
      rw [hloop]
    · rw [ho]
      simp [fqDivNat, hkne]
  · intro hz
    have hd : d = FQ.num 0 := by
      have hh := eventsLoop_def_zero tss (fbsTeamIds tss) ts.team.id ts.events
        (FQ.num 0, FQ.num 0, 0) _ hloop hz rfl
      simpa using hh
    refine ⟨⟨ts.team.location,
      fqDivNat d (ts.events.filter
        (fun e => contributes tss (fbsTeamIds tss) ts.team.id e)).length,
      fqDivNat o (ts.events.filter
        (fun e => contributes tss (fbsTeamIds tss) ts.team.id e)).length⟩,
      ?_, ?_⟩
    · unfold ratingOfTeam
      rw [hloop]
    · rw [hd]
      simp [fqDivNat, hkne]

/-- Team "1", which scored 21 against team "2" — exactly team "2"'s
baseline average allowed. -/
def c8TeamA : TeamSchedule :=
  ⟨⟨"1", "Alpha"⟩, [⟨[⟨[⟨"1", some ⟨⟨some 21⟩⟩⟩, ⟨"2", some ⟨⟨some 10⟩⟩⟩]⟩]⟩]⟩

/-- Team "2", whose only baseline-countable game (against "3") shows it
scoring 30 and allowing 21. -/
def c8TeamB : TeamSchedule :=
  ⟨⟨"2", "Beta"⟩, [⟨[⟨[⟨"2", some ⟨⟨some 30⟩⟩⟩, ⟨"3", some ⟨⟨some 21⟩⟩⟩]⟩]⟩]⟩

/-- Team "3", present only so that team "2"'s game against it counts. -/
def c8TeamC : TeamSchedule := ⟨⟨"3", "Gamma"⟩, []⟩

/-- Witness for C8: team "1" scored exactly its opponent's baseline
average allowed in its one counted game, and its offense rating is 0. -/
theorem c8_zero_rating_witness :
    ∃ r, ratingOfTeam [c8TeamA, c8TeamB, c8TeamC]
        (fbsTeamIds [c8TeamA, c8TeamB, c8TeamC]) c8TeamA = some r
      ∧ r.offense_rating = FQ.num 0 :=
  (c8_zero_rating [c8TeamA, c8TeamB, c8TeamC] c8TeamA
    (by norm_num +decide [gameDeltas, innerScan, oEventStep,
      resolveCompetitors, findOpponentSchedule, fbsTeamIds, fqSub, fqDivNat,
      c8TeamA, c8TeamB, c8TeamC])
    (by norm_num +decide [contributes, gameDeltas, innerScan, oEventStep,
      resolveCompetitors, findOpponentSchedule, fbsTeamIds, fqSub, fqDivNat,
      c8TeamA, c8TeamB, c8TeamC, List.filter])
    (by norm_num +decide [contributes, gameDeltas, innerScan, oEventStep,
      resolveCompetitors, findOpponentSchedule, fbsTeamIds, fqSub, fqDivNat,
      c8TeamA, c8TeamB, c8TeamC, List.filter])).1
    (by norm_num +decide [offContribZero, gameDeltas, innerScan, oEventStep,
      resolveCompetitors, findOpponentSchedule, fbsTeamIds, fqSub, fqDivNat,
      c8TeamA, c8TeamB, c8TeamC])
